import Mathlib

/-!
# Verification of the Nest-Common CRUD scaffolding layer

Shallow embedding of the repository's components:

* `src/common/decorators/crud.decorator.ts` — the `Crud` decorator's
  handlers (`query`, `export`, `delete`, `update` (PUT), `replace` (PATCH)).
* `src/common/utils/dto-factory.util.ts` — `DtoFactory.createDtos`.
* `src/common/utils/query-filter.util.ts` — `QueryFilterUtil.parseQueryFilters`.
* `src/common/decorators/readonly.decorator.ts` — `CrudEntityInterceptor`.
* `BaseService` (`base.service.ts`) — the repository wrapper, modelled as
  operations over a list of rows in query order.

The data layer is modelled as a `List` of rows in query order: a paged
query `findAndCount(filter, {offset, limit})` returns
`((rows.drop offset).take limit, rows.length)` where `rows` is the
filtered result set.
-/

namespace NestCommon

/-! ## Export streaming (`crud.decorator.ts`, `export` handler)

The handler fetches batches of `batchSize = 500` rows by repeated paged
queries at `offset = page * batchSize`, guarded by an `aborted` flag set by
the request's `'close'` event:

```
while (!aborted) {
  const [items, _] = await self.service.query(filter, { offset: page * batchSize, limit: batchSize });
  if (items.length === 0) break;
  for (const item of items) yield instanceToPlain(item);
  if (items.length < batchSize) break;
  page++;
}
```

`rows` is the filtered result set in query order; `aborted page` is the
value of the `aborted` flag when the loop iteration for `page` tests it
(the flag is only ever set, so a run of the real loop corresponds to a
monotone `aborted`; the theorems hold for any `aborted`). -/

/-- One paged query of the data layer: `service.query` returns the slice
`offset..offset+limit` of the filtered result set (`findAndCount`). -/
def fetchBatch (rows : List α) (offset limit : Nat) : List α :=
  (rows.drop offset).take limit

/-- The items yielded by `generateData`, starting from `page`. -/
def exportYields (rows : List α) (b : Nat) (hb : 0 < b) (aborted : Nat → Bool)
    (page : Nat) : List α :=
  if aborted page then []
  else if (fetchBatch rows (page * b) b).length = 0 then []
  else if (fetchBatch rows (page * b) b).length < b then fetchBatch rows (page * b) b
  else fetchBatch rows (page * b) b ++ exportYields rows b hb aborted (page + 1)
termination_by rows.length - page * b
decreasing_by
  simp only [fetchBatch, List.length_take, List.length_drop, Nat.succ_mul] at *
  omega

/-- The pages at which `generateData` starts a batch fetch, starting from
`page`: a fetch is started exactly when the `aborted` flag is still unset. -/
def exportFetches (rows : List α) (b : Nat) (hb : 0 < b) (aborted : Nat → Bool)
    (page : Nat) : List Nat :=
  if aborted page then []
  else if (fetchBatch rows (page * b) b).length = 0 then [page]
  else if (fetchBatch rows (page * b) b).length < b then [page]
  else page :: exportFetches rows b hb aborted (page + 1)
termination_by rows.length - page * b
decreasing_by
  simp only [fetchBatch, List.length_take, List.length_drop, Nat.succ_mul] at *
  omega

theorem exportYields_no_abort (rows : List α) (b : Nat) (hb : 0 < b)
    (ab : Nat → Bool) (hab : ∀ k, ab k = false) (page : Nat) :
    exportYields rows b hb ab page = rows.drop (page * b) := by
  refine exportYields.induct rows b hb ab
    (fun p => exportYields rows b hb ab p = rows.drop (p * b)) ?_ ?_ ?_ ?_ page
  · intro x h
    rw [hab] at h; exact absurd h (by simp)
  · intro x h h0
    rw [exportYields]
    simp only [fetchBatch, List.length_take, List.length_drop] at h0 ⊢
    rw [if_neg (by simp [hab]), if_pos (by simp; omega)]
    exact (List.drop_eq_nil_iff.mpr (by omega)).symm
  · intro x h h0 hlt
    rw [exportYields]
    simp only [fetchBatch, List.length_take, List.length_drop] at h0 hlt ⊢
    rw [if_neg (by simp [hab]), if_neg (by simp; omega), if_pos (by simp; omega)]
    exact List.take_of_length_le (by simp; omega)
  · intro x h h0 hlt ih
    rw [exportYields]
    simp only [fetchBatch, List.length_take, List.length_drop] at h0 hlt ⊢
    rw [if_neg (by simp [hab]), if_neg (by simp; omega), if_neg (by simp; omega)]
    rw [ih, Nat.succ_mul, ← List.drop_drop, List.take_append_drop]

theorem exportFetches_no_abort (rows : List α) (b : Nat) (hb : 0 < b)
    (ab : Nat → Bool) (hab : ∀ k, ab k = false) (page : Nat) :
    page ≤ rows.length / b →
    exportFetches rows b hb ab page
      = List.range' page (rows.length / b + 1 - page) := by
  refine exportFetches.induct rows b hb ab
    (fun p => p ≤ rows.length / b →
      exportFetches rows b hb ab p
        = List.range' p (rows.length / b + 1 - p)) ?_ ?_ ?_ ?_ page
  · intro x h
    rw [hab] at h; exact absurd h (by simp)
  · intro x h h0 hp
    rw [exportFetches]
    simp only [fetchBatch, List.length_take, List.length_drop] at h0 ⊢
    rw [if_neg (by simp [hab]), if_pos (by simp; omega)]
    have h2 : rows.length < (x + 1) * b := by rw [Nat.succ_mul]; omega
    have hq : rows.length / b < x + 1 := (Nat.div_lt_iff_lt_mul hb).mpr h2
    have h1 : rows.length / b + 1 - x = 1 := by omega
    rw [h1]
    rfl
  · intro x h h0 hlt hp
    rw [exportFetches]
    simp only [fetchBatch, List.length_take, List.length_drop] at h0 hlt ⊢
    rw [if_neg (by simp [hab]), if_neg (by simp; omega), if_pos (by simp; omega)]
    have h2 : rows.length < (x + 1) * b := by rw [Nat.succ_mul]; omega
    have hq : rows.length / b < x + 1 := (Nat.div_lt_iff_lt_mul hb).mpr h2
    have h1 : rows.length / b + 1 - x = 1 := by omega
    rw [h1]
    rfl
  · intro x h h0 hlt ih hp
    rw [exportFetches]
    simp only [fetchBatch, List.length_take, List.length_drop] at h0 hlt ⊢
    rw [if_neg (by simp [hab]), if_neg (by simp; omega), if_neg (by simp; omega)]
    have h2 : (x + 1) * b ≤ rows.length := by rw [Nat.succ_mul]; omega
    have hq : x + 1 ≤ rows.length / b := (Nat.le_div_iff_mul_le hb).mpr h2
    rw [ih hq]
    have h1 : rows.length / b + 1 - x = (rows.length / b + 1 - (x + 1)) + 1 := by
      omega
    rw [h1, List.range'_succ]

theorem exportFetches_not_aborted (rows : List α) (b : Nat) (hb : 0 < b)
    (ab : Nat → Bool) (page : Nat) :
    ∀ p ∈ exportFetches rows b hb ab page, ab p = false := by
  refine exportFetches.induct rows b hb ab
    (fun q => ∀ p ∈ exportFetches rows b hb ab q, ab p = false) ?_ ?_ ?_ ?_ page
  · intro x h
    rw [exportFetches, if_pos h]; intro p hp; simp at hp
  · intro x h h0
    rw [exportFetches, if_neg h, if_pos h0]
    intro p hp
    simp at hp
    subst hp
    simpa using h
  · intro x h h0 hlt
    rw [exportFetches, if_neg h, if_neg h0, if_pos hlt]
    intro p hp
    simp at hp
    subst hp
    simpa using h
  · intro x h h0 hlt ih
    rw [exportFetches, if_neg h, if_neg h0, if_neg hlt]
    intro p hp
    rcases List.mem_cons.mp hp with rfl | hp
    · simpa using h
    · exact ih p hp

/-- **C1.** The export handler fetches rows in fixed-size batches of 500 via
repeated paged queries (`offset = page * 500`): with the client connected
(`aborted` never set) the concatenation of all yielded items equals the
filtered result set in query order, each row exactly once; pages `0`,
`1`, … are fetched consecutively and fetching stops as soon as a batch is
empty or shorter than 500 (the fetched pages are exactly
`0 .. rows.length / 500`); and no batch fetch is started at a page where
the `aborted` flag (set by the `'close'` event) already reads `true`. -/
theorem export_stream_batches_correct (rows : List α) (aborted : Nat → Bool) :
    exportYields rows 500 (by decide) (fun _ => false) 0 = rows
    ∧ exportFetches rows 500 (by decide) (fun _ => false) 0
        = List.range (rows.length / 500 + 1)
    ∧ (∀ p ∈ exportFetches rows 500 (by decide) aborted 0, aborted p = false) := by
  refine ⟨?_, ?_, exportFetches_not_aborted rows 500 (by decide) aborted 0⟩
  · simpa using exportYields_no_abort rows 500 (by decide) _ (fun _ => rfl) 0
  · rw [List.range_eq_range']
    simpa using exportFetches_no_abort rows 500 (by decide) _ (fun _ => rfl) 0
      (Nat.zero_le _)

/-! ## DTO synthesis (`dto-factory.util.ts`, `DtoFactory.createDtos`)

`createDtos` walks the entity's prototype chain and its MikroORM metadata
and collects an `excluded` set of field names; the synthesized create DTO
(`DefaultCreateDto`) receives every schema property that is not excluded.
An `EntityProp` carries, for one schema property, the flags the source
consults; a prototype-chain flag (`swaggerReadOnly`, `nonWritable`,
`getter`, `readonlyMeta`) is `true` when any class on the chain marks the
property so. -/

/-- One property of the MikroORM entity metadata together with the
prototype-chain/class-transformer facts `createDtos` reads about it. -/
structure EntityProp where
  name : String
  /-- `prop.primary` -/
  primary : Bool
  /-- `prop.persist === false` marks a virtual, non-persisted field
  (this flag is the raw `persist` value, `true` when persisted). -/
  persist : Bool
  /-- `prop.autoincrement` -/
  autoincrement : Bool
  /-- `prop.onCreate` is set -/
  onCreate : Bool
  /-- `prop.onUpdate` is set -/
  onUpdate : Bool
  /-- `prop.version` -/
  version : Bool
  /-- `@ReadOnly()` metadata (`READONLY_METADATA_KEY`) on the property,
  anywhere on the prototype chain. -/
  readonlyMeta : Bool
  /-- swagger `readOnly: true` in `swagger/apiModelProperties`. -/
  swaggerReadOnly : Bool
  /-- a non-writable own property descriptor on some prototype. -/
  nonWritable : Bool
  /-- a getter property descriptor on some prototype. -/
  getter : Bool
  /-- `@Expose()` metadata not limited to `toPlainOnly`. -/
  exposed : Bool
  /-- `@Exclude()` metadata not limited to `toPlainOnly`. -/
  transformerExcluded : Bool
  /-- `prop.nullable` -/
  nullable : Bool
  deriving Repr, DecidableEq

/-- The class-transformer strategy found on the prototype chain
(`defaultMetadataStorage.getStrategy`); `excludeAll` is the default. -/
inductive TransformStrategy where
  | excludeAll
  | exposeAll
  deriving Repr, DecidableEq

/-- Membership of a property in the `excluded` set built by `createDtos`:
the union of the prototype-chain exclusions (swagger `readOnly`,
non-writable descriptors, getters, `@ReadOnly()`) and the MikroORM-driven
exclusions (primary key, `persist === false`, `autoincrement`, `onCreate`,
`onUpdate`, `version`, plus the class-transformer exposure rule). -/
def isExcluded (strategy : TransformStrategy) (p : EntityProp) : Bool :=
  p.swaggerReadOnly || p.nonWritable || p.getter || p.readonlyMeta
    || p.primary || !p.persist || p.autoincrement || p.onCreate || p.onUpdate
    || p.version
    || (match strategy with
        | .excludeAll => !p.exposed
        | .exposeAll => p.transformerExcluded)

/-- The properties the synthesized `DefaultCreateDto` receives: every
schema property not in the `excluded` set (`if (excluded.has(prop.name))
return;`). -/
def createDtoFields (strategy : TransformStrategy) (props : List EntityProp) :
    List EntityProp :=
  props.filter (fun p => !isExcluded strategy p)

/-- **C2.** The synthesized create DTO contains no primary-key field, no
auto-generated field (autoincrement, onCreate, onUpdate, version,
non-persisted) and no field marked readonly (`@ReadOnly` metadata, swagger
`readOnly`, or a non-writable/getter descriptor on the prototype chain);
every other schema field that the serialization rules expose is present. -/
theorem create_dto_field_exclusions (strategy : TransformStrategy)
    (props : List EntityProp) :
    (∀ p ∈ createDtoFields strategy props,
      p.primary = false ∧ p.autoincrement = false ∧ p.onCreate = false
        ∧ p.onUpdate = false ∧ p.version = false ∧ p.persist = true
        ∧ p.readonlyMeta = false ∧ p.swaggerReadOnly = false
        ∧ p.nonWritable = false ∧ p.getter = false)
    ∧ (∀ p ∈ props,
        p.primary = false → p.autoincrement = false → p.onCreate = false →
        p.onUpdate = false → p.version = false → p.persist = true →
        p.readonlyMeta = false → p.swaggerReadOnly = false →
        p.nonWritable = false → p.getter = false →
        (strategy = .excludeAll → p.exposed = true) →
        (strategy = .exposeAll → p.transformerExcluded = false) →
        p ∈ createDtoFields strategy props) := by
  constructor
  · intro p hp
    rw [createDtoFields, List.mem_filter] at hp
    obtain ⟨-, hex⟩ := hp
    cases strategy <;>
      simp only [isExcluded, Bool.not_eq_eq_eq_not, Bool.not_true, Bool.or_eq_false_iff,
        Bool.not_eq_false'] at hex <;>
      tauto
  · intro p hp h1 h2 h3 h4 h5 h6 h7 h8 h9 h10 h11 h12
    rw [createDtoFields, List.mem_filter]
    refine ⟨hp, ?_⟩
    cases strategy <;>
      simp only [isExcluded, h1, h2, h3, h4, h5, h6, h7, h8, h9, h10, Bool.not_true,
        Bool.or_self, Bool.or_false, Bool.false_or, Bool.not_eq_eq_eq_not, Bool.not_false] <;>
      simp [h11, h12]

/-! ## Update-DTO derivation and idempotence (`dto-factory.util.ts`)

The update DTO is `class DefaultUpdateDto extends PartialType(createDto)`;
then every class-validator metadata targeting the create DTO is copied to
target `DefaultUpdateDto` and `IsOptional()` is applied to its property.
A DTO shape is modelled as its fields (name + swagger optionality); the
class-validator storage as a list of (property, rule) entries per class. -/

/-- One class-validator rule kind the DTO factory attaches. -/
inductive VRule where
  | isString
  | isNumber
  | isInt
  | isBoolean
  | isDate
  | isEnum
  | isArray
  | isNotEmpty
  | isOptional
  deriving Repr, DecidableEq

/-- One entry of the class-validator metadata storage for one DTO class:
a rule attached to a property. -/
structure VMeta where
  propertyName : String
  rule : VRule
  deriving Repr, DecidableEq

/-- One field of a DTO shape, with its swagger optionality. -/
structure DtoField where
  name : String
  optional : Bool
  deriving Repr, DecidableEq

/-- swagger's `PartialType(createDto)`: the same fields as the create DTO,
every one optional. -/
def mkUpdateDtoFields (createFields : List DtoField) : List DtoField :=
  createFields.map (fun f => { f with optional := true })

/-- The validation-metadata copy in `createDtos`: for each metadata entry
of the create DTO, an identical entry is added targeting
`DefaultUpdateDto` (`storage.addValidationMetadata(newMeta)`) and
`IsOptional()` is applied to the same property. -/
def mkUpdateDtoMetas (createMetas : List VMeta) : List VMeta :=
  createMetas.flatMap
    (fun m => [m, { propertyName := m.propertyName, rule := .isOptional }])

/-- **C3.** The synthesized update DTO has exactly the fields of the create
DTO, every field is optional, every validation rule attached to a
create-DTO field is also attached to the same update-DTO field, and every
such field additionally carries `IsOptional`. -/
theorem update_dto_from_create_dto (createFields : List DtoField)
    (createMetas : List VMeta) :
    (mkUpdateDtoFields createFields).map DtoField.name
        = createFields.map DtoField.name
    ∧ (∀ f ∈ mkUpdateDtoFields createFields, f.optional = true)
    ∧ (∀ m ∈ createMetas, m ∈ mkUpdateDtoMetas createMetas)
    ∧ (∀ m ∈ createMetas,
        ({ propertyName := m.propertyName, rule := .isOptional } : VMeta)
          ∈ mkUpdateDtoMetas createMetas) := by
  refine ⟨?_, ?_, ?_, ?_⟩
  · simp [mkUpdateDtoFields]
  · intro f hf
    rw [mkUpdateDtoFields, List.mem_map] at hf
    obtain ⟨g, -, rfl⟩ := hf
    rfl
  · intro m hm
    rw [mkUpdateDtoMetas, List.mem_flatMap]
    exact ⟨m, hm, by simp⟩
  · intro m hm
    rw [mkUpdateDtoMetas, List.mem_flatMap]
    exact ⟨m, hm, by simp⟩

/-- The `createDto`/`updateDto` slots of the `CrudOptions` object that
`DtoFactory.createDtos` reads and mutates. -/
structure CrudDtoOptions where
  createDto : Option (List DtoField)
  updateDto : Option (List DtoField)
  deriving Repr, DecidableEq

/-- The create DTO `createDtos` synthesizes when none is supplied: the
non-excluded schema fields, a field being optional exactly when nullable
(`IsOptional`/`ApiPropertyOptional` versus `IsNotEmpty`/`ApiProperty`). -/
def synthCreateDto (strategy : TransformStrategy) (props : List EntityProp) :
    List DtoField :=
  (createDtoFields strategy props).map
    (fun p => { name := p.name, optional := p.nullable })

/-- `DtoFactory.createDtos(options)`: runs only when a DTO is missing
(`if (!options.createDto || !options.updateDto)`); a missing create DTO is
synthesized from the schema, a missing update DTO is derived from the
(possibly just-synthesized) create DTO, and the options object is mutated
to hold them. -/
def createDtos (strategy : TransformStrategy) (props : List EntityProp)
    (options : CrudDtoOptions) : CrudDtoOptions :=
  if options.createDto.isNone || options.updateDto.isNone then
    let options1 :=
      match options.createDto with
      | none => { options with createDto := some (synthCreateDto strategy props) }
      | some _ => options
    match options1.updateDto with
    | none =>
        { options1 with
          updateDto := some (mkUpdateDtoFields (options1.createDto.getD [])) }
    | some _ => options1
  else options

/-- **C8.** DTO derivation is idempotent: the first `createDtos` call
stores both DTOs in the options object, and a second call with that same
object is a no-op, so the create and update DTOs stay identical to those
the first call produced. -/
theorem create_dtos_idempotent (strategy : TransformStrategy)
    (props : List EntityProp) (options : CrudDtoOptions) :
    createDtos strategy props (createDtos strategy props options)
        = createDtos strategy props options
    ∧ (createDtos strategy props options).createDto.isSome = true
    ∧ (createDtos strategy props options).updateDto.isSome = true := by
  obtain ⟨c, u⟩ := options
  cases c <;> cases u <;> simp [createDtos]

/-! ## Paginated list handler (`crud.decorator.ts`, `query` handler, and
`BaseService.query`)

`BaseService.query` is `repository.findAndCount(where, options)`: the rows
matching the filter, sliced by `offset`/`limit`, together with the total
count of matching rows. The handler defaults `limit` to 100 and `page` to
0 (`if (!limit) limit = 100; if (!page) page = 0;` — `0` and a missing
parameter are both falsy), queries at `offset = page * limit`, and returns
a `PaginationDto` with `totalPages = Math.ceil(total / limit)`. -/

/-- The rows of the data set matching the handler's filter, in query
order. -/
def matching (db : List α) (f : α → Bool) : List α :=
  db.filter f

/-- `BaseService.query` = `repository.findAndCount(where, {offset, limit})`:
the slice of the matching rows plus the total count of matching rows. -/
def serviceQuery (db : List α) (f : α → Bool) (offset limit : Nat) :
    List α × Nat :=
  (((matching db f).drop offset).take limit, (matching db f).length)

/-- The `PaginationDto` the handler fills. -/
structure PaginationDto (α : Type) where
  data : List α
  total : Nat
  page : Nat
  limit : Nat
  totalPages : Nat
  deriving Repr, DecidableEq

/-- `if (!limit) limit = 100;` — an absent or `0` (falsy) limit becomes
100. -/
def effectiveLimit (limit? : Option Nat) : Nat :=
  match limit? with
  | none => 100
  | some 0 => 100
  | some l => l

/-- `if (!page) page = 0;` — an absent or `0` (falsy) page stays 0. -/
def effectivePage (page? : Option Nat) : Nat :=
  match page? with
  | none => 0
  | some p => p

/-- `Math.ceil(total / limit)` on the exact quotient, for `limit > 0`. -/
def jsCeilDiv (a b : Nat) : Nat :=
  (a + b - 1) / b

/-- The paginated branch of the `query` handler. -/
def queryHandler (db : List α) (f : α → Bool) (page? limit? : Option Nat) :
    PaginationDto α :=
  let limit := effectiveLimit limit?
  let page := effectivePage page?
  let r := serviceQuery db f (page * limit) limit
  { data := r.1
    total := r.2
    page := page
    limit := limit
    totalPages := jsCeilDiv r.2 limit }

theorem effectiveLimit_pos (limit? : Option Nat) : 0 < effectiveLimit limit? := by
  rcases limit? with - | - | l <;> simp [effectiveLimit]

/-- `jsCeilDiv a b` is the ceiling of `a / b`: the least `n` with
`a ≤ n * b`. -/
theorem jsCeilDiv_spec (a b : Nat) (hb : 0 < b) :
    a ≤ jsCeilDiv a b * b ∧ ∀ n, a ≤ n * b → jsCeilDiv a b ≤ n := by
  constructor
  · have hmod : (a + b - 1) % b < b := Nat.mod_lt _ hb
    have hdm : b * ((a + b - 1) / b) + (a + b - 1) % b = a + b - 1 :=
      Nat.div_add_mod (a + b - 1) b
    rw [jsCeilDiv, Nat.mul_comm ((a + b - 1) / b) b]
    generalize b * ((a + b - 1) / b) = m at hdm ⊢
    omega
  · intro n hn
    have : jsCeilDiv a b < n + 1 := by
      rw [jsCeilDiv]
      refine (Nat.div_lt_iff_lt_mul hb).mpr ?_
      rw [Nat.succ_mul]
      generalize hm : n * b = m at hn
      omega
    omega

/-- **C4.** For every paginated list request the handler returns
`total` equal to the data layer's count of rows matching the filter,
`totalPages = ceil(total / limit)` (the least page count covering `total`
rows at `limit` rows per page), and a data array of at most `limit` rows —
the slice the query issued at `offset = page * limit`. -/
theorem query_handler_pagination (db : List α) (f : α → Bool)
    (page? limit? : Option Nat) :
    (queryHandler db f page? limit?).total = (matching db f).length
    ∧ (queryHandler db f page? limit?).totalPages
        = jsCeilDiv (queryHandler db f page? limit?).total
            (queryHandler db f page? limit?).limit
    ∧ (queryHandler db f page? limit?).total
        ≤ (queryHandler db f page? limit?).totalPages
            * (queryHandler db f page? limit?).limit
    ∧ (∀ n, (queryHandler db f page? limit?).total
          ≤ n * (queryHandler db f page? limit?).limit →
        (queryHandler db f page? limit?).totalPages ≤ n)
    ∧ (queryHandler db f page? limit?).data.length
        ≤ (queryHandler db f page? limit?).limit
    ∧ (queryHandler db f page? limit?).data
        = ((matching db f).drop
            ((queryHandler db f page? limit?).page
              * (queryHandler db f page? limit?).limit)).take
            (queryHandler db f page? limit?).limit := by
  have hb := effectiveLimit_pos limit?
  have hspec := jsCeilDiv_spec (matching db f).length (effectiveLimit limit?) hb
  refine ⟨rfl, rfl, hspec.1, hspec.2, ?_, rfl⟩
  simp [queryHandler, serviceQuery]

/-- **C9.** An absent or zero `limit` defaults to 100, an absent or zero
`page` defaults to 0 (pages are zero-based), and the data-layer query is
issued with `offset = page * limit`: the returned data is the slice of the
matching rows starting at `effectivePage * effectiveLimit`. -/
theorem query_handler_defaults (db : List α) (f : α → Bool)
    (page? limit? : Option Nat) :
    effectiveLimit none = 100
    ∧ effectiveLimit (some 0) = 100
    ∧ effectivePage none = 0
    ∧ effectivePage (some 0) = 0
    ∧ (queryHandler db f page? limit?).limit = effectiveLimit limit?
    ∧ (queryHandler db f page? limit?).page = effectivePage page?
    ∧ (queryHandler db f page? limit?).data
        = ((matching db f).drop (effectivePage page? * effectiveLimit limit?)).take
            (effectiveLimit limit?) := by
  exact ⟨rfl, rfl, rfl, rfl, rfl, rfl, rfl⟩

/-! ## Query-filter translation (`query-filter.util.ts`,
`QueryFilterUtil.parseQueryFilters`)

Query-string values are raw strings; the JS conversions `Number(v)` and
`new Date(v)` are parameters of the model (`numConv`, `dateConv`, dates as
epoch milliseconds). The built `where` object maps field names to either
an exact-match value or an operator object (`$like`/`$gte`/`$lte`). -/

/-- A typed value in a `where` entry. -/
inductive QVal where
  | str (s : String)
  | num (n : Int)
  | date (d : Int)
  | bool (b : Bool)
  deriving Repr, DecidableEq

/-- The property type as `parseQueryFilters` classifies `prop.type`
(`isString` / `isNumber` / `isDate` / `isBoolean`, anything else exact-only). -/
inductive PropType where
  | str
  | num
  | date
  | bool
  | other
  deriving Repr, DecidableEq

/-- An operator object `{ $like?, $gte?, $lte? }`. -/
structure OpObj where
  like : Option String := none
  gte : Option QVal := none
  lte : Option QVal := none
  deriving Repr, DecidableEq

/-- One value of the `where` record: a primitive exact match or an
operator object. -/
inductive WhereVal where
  | exact (v : QVal)
  | ops (o : OpObj)
  deriving Repr, DecidableEq

/-- `where[key]` read. -/
def getKey (w : List (String × WhereVal)) (k : String) : Option WhereVal :=
  (w.find? (fun kv => kv.1 == k)).map (·.2)

/-- `where[key] = v` write (JS object key update). -/
def setKey (w : List (String × WhereVal)) (k : String) (v : WhereVal) :
    List (String × WhereVal) :=
  if w.any (fun kv => kv.1 == k) then
    w.map (fun kv => if kv.1 == k then (k, v) else kv)
  else w ++ [(k, v)]

/-- `{ ...(where[key] || {}) }`: spreading an absent value or a previous
operator object; spreading a primitive (a previous exact match)
contributes no `$like`/`$gte`/`$lte` keys, so it is the empty operator
object here. -/
def spreadPrev : Option WhereVal → OpObj
  | some (.ops o) => o
  | some (.exact _) => {}
  | none => {}

/-- The default translation of one enabled filterable field: the exact
match, then `.contains` for strings, then `.min`/`.max` for numbers and
dates, exactly in the source's order. -/
def translateField (numConv dateConv : String → Int)
    (query : String → Option String) (w : List (String × WhereVal))
    (key exposed : String) (t : PropType) : List (String × WhereVal) :=
  -- Exact match
  let w :=
    match query exposed with
    | some v =>
        setKey w key (.exact
          (if t = .num then .num (numConv v)
           else if t = .bool then .bool (v == "true")
           else if t = .date then .date (dateConv v)
           else .str v))
    | none => w
  -- String contains
  let w :=
    if t = .str then
      match query (exposed ++ ".contains") with
      | some v =>
          setKey w key
            (.ops { spreadPrev (getKey w key) with like := some ("%" ++ v ++ "%") })
      | none => w
    else w
  -- Min/Max for numbers and dates
  if (t = .num || t = .date)
      && ((query (exposed ++ ".min")).isSome || (query (exposed ++ ".max")).isSome) then
    let prev := spreadPrev (getKey w key)
    let gteV :=
      match query (exposed ++ ".min") with
      | some v => some (if t = .num then QVal.num (numConv v) else QVal.date (dateConv v))
      | none => prev.gte
    let lteV :=
      match query (exposed ++ ".max") with
      | some v => some (if t = .num then QVal.num (numConv v) else QVal.date (dateConv v))
      | none => prev.lte
    setKey w key (.ops { like := prev.like, gte := gteV, lte := lteV })
  else w

/-- One entry of the `filterConfig` record: a boolean toggle or a custom
translation function. -/
inductive FilterCfg where
  | flag (b : Bool)
  | custom (f : String → List (String × WhereVal))

/-- One entry of the MikroORM metadata `parseQueryFilters` consults. -/
structure PropMeta where
  name : String
  type : PropType

/-- `Object.assign(where, customFilter)`. -/
def objectAssignW (w add : List (String × WhereVal)) : List (String × WhereVal) :=
  add.foldl (fun acc kv => setKey acc kv.1 kv.2) w

/-- `QueryFilterUtil.parseQueryFilters(query, filterConfig, entity)`:
iterate the filter config, skip disabled entries, merge custom filters,
translate default entries by property type. `toExposed` is the
exposed-name map (`toExposed.get(key) || key`). -/
def parseQueryFilters (numConv dateConv : String → Int)
    (query : String → Option String) (filterConfig : List (String × FilterCfg))
    (props : List PropMeta) (toExposed : String → Option String) :
    List (String × WhereVal) :=
  filterConfig.foldl
    (fun w cfg =>
      match cfg.2 with
      | .flag false => w
      | .custom f =>
          let exposed := (toExposed cfg.1).getD cfg.1
          match query exposed with
          | some v => objectAssignW w (f v)
          | none => w
      | .flag true =>
          let exposed := (toExposed cfg.1).getD cfg.1
          match props.find? (fun p => p.name == cfg.1) with
          | none => w
          | some prop => translateField numConv dateConv query w cfg.1 exposed prop.type)
    []

/-! ### Operator semantics

`$gte`/`$lte` are the data layer's inclusive comparisons and `$like` is
SQL LIKE (`%` a wildcard for any substring); these external semantics are
modelled so the translated predicates can be read back as substring and
inclusive-range conditions. -/

/-- Inclusive order on comparable values (`$gte`/`$lte`). -/
def qValLe : QVal → QVal → Bool
  | .num a, .num b => decide (a ≤ b)
  | .date a, .date b => decide (a ≤ b)
  | .str a, .str b => decide (a ≤ b)
  | .bool a, .bool b => !a || b
  | _, _ => false

/-- A compiled LIKE-pattern token: `%` or a literal character. -/
inductive LikeTok where
  | pct
  | lit (c : Char)
  deriving Repr, DecidableEq

/-- Compile a SQL LIKE pattern: `%` is a wildcard, every other character
matches itself. -/
def likePattern (pat : String) : List LikeTok :=
  pat.toList.map (fun c => if c = '%' then LikeTok.pct else LikeTok.lit c)

/-- SQL LIKE matching of a compiled pattern against a string. -/
def likeMatch : List LikeTok → List Char → Bool
  | [], [] => true
  | [], _ :: _ => false
  | .pct :: ps, s =>
      likeMatch ps s ||
        (match s with
         | [] => false
         | _ :: s' => likeMatch (LikeTok.pct :: ps) s')
  | .lit _ :: _, [] => false
  | .lit p :: ps, c :: s => p == c && likeMatch ps s
termination_by p s => (p.length, s.length)

/-- The row satisfies an operator object. -/
def satisfiesOps (o : OpObj) (v : QVal) : Bool :=
  (match o.like with
   | some pat =>
       match v with
       | .str s => likeMatch (likePattern pat) s.toList
       | _ => false
   | none => true)
  && (match o.gte with
      | some bnd => qValLe bnd v
      | none => true)
  && (match o.lte with
      | some bnd => qValLe v bnd
      | none => true)

/-- The row value satisfies a `where` entry. -/
def satisfiesWhere : WhereVal → QVal → Bool
  | .exact w, v => w == v
  | .ops o, v => satisfiesOps o v

theorem likeMatch_one_pct (s : List Char) : likeMatch [LikeTok.pct] s = true := by
  induction s with
  | nil => simp [likeMatch]
  | cons c s ih => rw [likeMatch]; simp [ih]

theorem likeMatch_pct_iff (ps : List LikeTok) (s : List Char) :
    likeMatch (LikeTok.pct :: ps) s = true
      ↔ ∃ t, t <:+ s ∧ likeMatch ps t = true := by
  induction s with
  | nil =>
      rw [likeMatch]
      simp only [Bool.or_false]
      constructor
      · intro h
        exact ⟨[], List.suffix_refl _, h⟩
      · rintro ⟨t, ht, hm⟩
        rw [List.suffix_nil.mp ht] at hm
        exact hm
  | cons c s' ih =>
      rw [likeMatch]
      simp only [Bool.or_eq_true, ih]
      constructor
      · rintro (h | ⟨t, ht, hm⟩)
        · exact ⟨c :: s', List.suffix_refl _, h⟩
        · exact ⟨t, ht.trans (List.suffix_cons c s'), hm⟩
      · rintro ⟨t, ht, hm⟩
        rcases List.suffix_cons_iff.mp ht with rfl | ht'
        · exact Or.inl hm
        · exact Or.inr ⟨t, ht', hm⟩

theorem likeMatch_lits_pct (v s : List Char) :
    likeMatch (v.map LikeTok.lit ++ [LikeTok.pct]) s = true ↔ v <+: s := by
  induction v generalizing s with
  | nil => simp [likeMatch_one_pct]
  | cons c v' ih =>
      cases s with
      | nil =>
          rw [List.map_cons, List.cons_append, likeMatch]
          simp
      | cons d s' =>
          rw [List.map_cons, List.cons_append, likeMatch]
          simp [ih, List.cons_prefix_cons]

/-- LIKE `'%v%'` is exactly the substring predicate, for a `v` without
wildcards. -/
theorem likeMatch_contains (v s : String) (hv : ¬ '%' ∈ v.toList) :
    likeMatch (likePattern ("%" ++ v ++ "%")) s.toList = true
      ↔ v.toList <:+: s.toList := by
  have hpat : likePattern ("%" ++ v ++ "%")
      = LikeTok.pct :: (v.toList.map LikeTok.lit ++ [LikeTok.pct]) := by
    have h1 : ("%" ++ v ++ "%").toList = '%' :: (v.toList ++ ['%']) := rfl
    have h2 : v.toList.map (fun c => if c = '%' then LikeTok.pct else LikeTok.lit c)
        = v.toList.map LikeTok.lit :=
      List.map_congr_left (fun c hc => if_neg (fun (h : c = '%') => hv (h ▸ hc)))
    rw [likePattern, h1, List.map_cons, List.map_append, h2]
    simp
  rw [hpat, likeMatch_pct_iff, List.infix_iff_prefix_suffix]
  constructor
  · rintro ⟨t, ht, hm⟩
    exact ⟨t, (likeMatch_lits_pct _ _).mp hm, ht⟩
  · rintro ⟨t, hpre, hsuf⟩
    exact ⟨t, hsuf, (likeMatch_lits_pct _ _).mpr hpre⟩

/-- **C5.** For a filterable numeric (resp. date) field, `field.min` and
`field.max` translate into a single operator object on that field holding
`$gte` of the converted min and `$lte` of the converted max — a range
predicate inclusive at both ends; for a filterable string field,
`field.contains` translates into a `$like '%value%'` predicate, which is
the substring predicate. -/
theorem parse_query_filters_range_and_contains
    (numConv dateConv : String → Int) (key mi ma c : String)
    (qn qs : String → Option String)
    (hn0 : qn key = none)
    (hn1 : qn (key ++ ".min") = some mi)
    (hn2 : qn (key ++ ".max") = some ma)
    (hs0 : qs key = none)
    (hs1 : qs (key ++ ".contains") = some c)
    (hc : ¬ '%' ∈ c.toList) :
    (getKey (parseQueryFilters numConv dateConv qn [(key, .flag true)]
        [⟨key, .num⟩] (fun _ => none)) key
      = some (.ops ⟨none, some (.num (numConv mi)), some (.num (numConv ma))⟩))
    ∧ (∀ x : Int,
        satisfiesWhere
            (.ops ⟨none, some (.num (numConv mi)), some (.num (numConv ma))⟩)
            (.num x) = true
          ↔ numConv mi ≤ x ∧ x ≤ numConv ma)
    ∧ (getKey (parseQueryFilters numConv dateConv qn [(key, .flag true)]
        [⟨key, .date⟩] (fun _ => none)) key
      = some (.ops ⟨none, some (.date (dateConv mi)), some (.date (dateConv ma))⟩))
    ∧ (∀ x : Int,
        satisfiesWhere
            (.ops ⟨none, some (.date (dateConv mi)), some (.date (dateConv ma))⟩)
            (.date x) = true
          ↔ dateConv mi ≤ x ∧ x ≤ dateConv ma)
    ∧ (getKey (parseQueryFilters numConv dateConv qs [(key, .flag true)]
        [⟨key, .str⟩] (fun _ => none)) key
      = some (.ops ⟨some ("%" ++ c ++ "%"), none, none⟩))
    ∧ (∀ s : String,
        satisfiesWhere (.ops ⟨some ("%" ++ c ++ "%"), none, none⟩)
            (.str s) = true
          ↔ c.toList <:+: s.toList) := by
  refine ⟨?_, ?_, ?_, ?_, ?_, ?_⟩
  · simp [parseQueryFilters, translateField, hn0, hn1, hn2, spreadPrev, getKey, setKey]
  · intro x
    simp [satisfiesWhere, satisfiesOps, qValLe]
  · simp [parseQueryFilters, translateField, hn0, hn1, hn2, spreadPrev, getKey, setKey]
  · intro x
    simp [satisfiesWhere, satisfiesOps, qValLe]
  · simp [parseQueryFilters, translateField, hs0, hs1, spreadPrev, getKey, setKey]
  · intro s
    simp only [satisfiesWhere, satisfiesOps, Bool.and_true]
    exact likeMatch_contains c s hc

/-- Witness for the range-and-contains translation at concrete inputs:
field `"age"`, `age.min = "1"`, `age.max = "9"` under the conversion
`String.toNat?` (0 for unparsable input). -/
theorem parse_query_filters_witness :
    getKey (parseQueryFilters (fun v => ((v.toNat?).getD 0 : Int))
        (fun v => ((v.toNat?).getD 0 : Int))
        (fun k => if k = "age.min" then some "1"
                  else if k = "age.max" then some "9" else none)
        [("age", .flag true)] [⟨"age", .num⟩] (fun _ => none)) "age"
      = some (.ops ⟨none, some (.num (("1".toNat?).getD 0 : Int)),
                    some (.num (("9".toNat?).getD 0 : Int))⟩) :=
  (parse_query_filters_range_and_contains
    (fun v => ((v.toNat?).getD 0 : Int)) (fun v => ((v.toNat?).getD 0 : Int))
    "age" "1" "9" "b"
    (fun k => if k = "age.min" then some "1"
              else if k = "age.max" then some "9" else none)
    (fun k => if k = "age.contains" then some "b" else none)
    (by decide) (by decide) (by decide) (by decide) (by decide) (by decide)).1

/-! ## Entity-fetch interceptor (`readonly.decorator.ts`,
`CrudEntityInterceptor.intercept`)

The interceptor resolves the primary-key type from the schema metadata,
parses the id (`new ObjectId(idValue)` inside try/catch for ObjectId keys,
`Number(idValue)` with an `isNaN` check for numeric keys), merges the
caller's scoping filter with the primary-key condition, fetches with
`findOne`, throws `NotFoundException` when absent and otherwise attaches
the entity to the request. `validOid` (the mongodb driver's ObjectId
validity check) and `jsNumber` (`Number`, `none` for `NaN`) are external
runtime functions supplied as parameters. -/

/-- The primary-key value `parseId` produces. -/
inductive PkVal where
  | oid (hex : String)
  | num (n : Int)
  | str (s : String)
  deriving Repr, DecidableEq

/-- The primary-key type resolved from the schema metadata. -/
inductive PkType where
  | objectId
  | number
  | plainString
  deriving Repr, DecidableEq

/-- The two client-error outcomes of the interceptor. -/
inductive HttpError where
  | badRequest (msg : String)
  | notFound (msg : String)
  deriving Repr, DecidableEq

/-- Parse the raw id value by primary-key type: an invalid ObjectId or a
`NaN` numeric id is a `BadRequestException`. -/
def parseIdValue (validOid : String → Bool) (jsNumber : String → Option Int) :
    PkType → String → Except HttpError PkVal
  | .objectId, s =>
      if validOid s then .ok (.oid s)
      else .error (.badRequest "Invalid ObjectId")
  | .number, s =>
      match jsNumber s with
      | some n => .ok (.num n)
      | none => .error (.badRequest "Invalid ID")
  | .plainString, s => .ok (.str s)

/-- `CrudEntityInterceptor.intercept` on a route whose params carry the id:
parse, fetch `findOne({...filter, [primaryKey]: parsedId})` (the first row
satisfying the scoping filter with the parsed key), `NotFoundException`
when absent; on success the fetched entity (the returned value) is
attached to the request (`req[FETCHED_ENTITY_KEY]`). -/
def interceptFetch {E : Type} (validOid : String → Bool)
    (jsNumber : String → Option Int) (pkType : PkType) (scope : E → Bool)
    (pkOf : E → PkVal) (db : List E) (entityName : String) (idValue : String) :
    Except HttpError E :=
  match parseIdValue validOid jsNumber pkType idValue with
  | .error e => .error e
  | .ok parsed =>
      match db.find? (fun e => scope e && pkOf e == parsed) with
      | none => .error (.notFound (entityName ++ " not found"))
      | some e => .ok e

/-- **C6.** An id that cannot be parsed as the primary-key type (invalid
ObjectId, or `NaN` for a numeric key) yields a bad-request error; a
well-formed id whose entity is absent under the scoping filter yields a
not-found error; the two outcomes are distinct; and on success the fetched
entity — the first row satisfying the scoping filter with the parsed key —
is attached to the request for the downstream handler. -/
theorem intercept_fetch_outcomes {E : Type} (validOid : String → Bool)
    (jsNumber : String → Option Int) (scope : E → Bool) (pkOf : E → PkVal)
    (db : List E) (name raw : String) :
    (validOid raw = false →
      interceptFetch validOid jsNumber .objectId scope pkOf db name raw
        = .error (.badRequest "Invalid ObjectId"))
    ∧ (jsNumber raw = none →
      interceptFetch validOid jsNumber .number scope pkOf db name raw
        = .error (.badRequest "Invalid ID"))
    ∧ (∀ pkType parsed,
        parseIdValue validOid jsNumber pkType raw = .ok parsed →
        db.find? (fun e => scope e && pkOf e == parsed) = none →
        interceptFetch validOid jsNumber pkType scope pkOf db name raw
          = .error (.notFound (name ++ " not found")))
    ∧ (∀ m m', HttpError.badRequest m ≠ HttpError.notFound m')
    ∧ (∀ pkType parsed ent,
        parseIdValue validOid jsNumber pkType raw = .ok parsed →
        db.find? (fun e => scope e && pkOf e == parsed) = some ent →
        interceptFetch validOid jsNumber pkType scope pkOf db name raw = .ok ent
          ∧ scope ent = true ∧ pkOf ent = parsed) := by
  refine ⟨?_, ?_, ?_, ?_, ?_⟩
  · intro h
    simp [interceptFetch, parseIdValue, h]
  · intro h
    simp [interceptFetch, parseIdValue, h]
  · intro pkType parsed hparse hfind
    simp [interceptFetch, hparse, hfind]
  · intro m m' h
    exact HttpError.noConfusion h
  · intro pkType parsed ent hparse hfind
    have hpred := List.find?_some hfind
    simp only [Bool.and_eq_true, beq_iff_eq] at hpred
    exact ⟨by simp [interceptFetch, hparse, hfind], hpred.1, hpred.2⟩

/-! ## JS objects, and the delete / PUT / PATCH handlers
(`crud.decorator.ts`, `base.service.ts`)

A stored entity and a request body are modelled as JS objects:
association lists in insertion order with unique keys. A PUT body can hold
`undefined` (`none`) values; the `update` handler deletes those keys from
its copy of the body before calling `service.update`, which applies
`Object.assign(result, data)` to the entity `findOne` returned. -/

/-- A defined JSON-ish field value. -/
inductive JVal where
  | str (s : String)
  | num (n : Int)
  | bool (b : Bool)
  | null
  deriving Repr, DecidableEq

/-- A JS object: fields in insertion order (keys unique in a real
object). -/
abbrev JsObj := List (String × JVal)

/-- A PUT request body: a field can be present with a defined value or
present with the value `undefined` (`none`). -/
abbrev PutBody := List (String × Option JVal)

/-- `o[k]` read. -/
def objGet {β : Type} (o : List (String × β)) (k : String) : Option β :=
  (o.find? (fun kv => kv.1 == k)).map (·.2)

/-- `o[k] = v` write: overwrite the key in place or append it. -/
def objSet {β : Type} : List (String × β) → String → β → List (String × β)
  | [], k, v => [(k, v)]
  | kv :: rest, k, v =>
      if kv.1 == k then (k, v) :: rest else kv :: objSet rest k v

/-- `Object.assign(o, src)`. -/
def objAssign {β : Type} (o src : List (String × β)) : List (String × β) :=
  src.foldl (fun acc kv => objSet acc kv.1 kv.2) o

/-- `let toUpdateBody = {}; Object.assign(toUpdateBody, body);
for (const key in toUpdateBody) if (toUpdateBody[key] === undefined)
delete toUpdateBody[key];` — the defined entries of the body, in order. -/
def strippedBody (body : PutBody) : JsObj :=
  body.filterMap (fun kv => kv.2.map (fun v => (kv.1, v)))

/-- `service.update`'s effect of a PUT body on the fetched entity:
`Object.assign(result, toUpdateBody)`. -/
def applyPutBody (e : JsObj) (body : PutBody) : JsObj :=
  objAssign e (strippedBody body)

theorem objGet_cons {β : Type} (k1 : String) (v1 : β) (rest : List (String × β))
    (k : String) :
    objGet ((k1, v1) :: rest) k = if k1 = k then some v1 else objGet rest k := by
  by_cases h : k1 = k
  · subst h
    simp [objGet]
  · have hb : (k1 == k) = false := by simp [h]
    simp [objGet, List.find?_cons, hb, h]

theorem objGet_objSet {β : Type} (o : List (String × β)) (k : String) (v : β)
    (k' : String) :
    objGet (objSet o k v) k' = if k' = k then some v else objGet o k' := by
  induction o with
  | nil =>
      rw [objSet, objGet_cons]
      by_cases h : k' = k
      · rw [if_pos h.symm, if_pos h]
      · rw [if_neg (fun hh : k = k' => h hh.symm), if_neg h]
  | cons kv rest ih =>
      obtain ⟨k1, v1⟩ := kv
      rw [objSet]
      by_cases h1 : k1 = k
      · rw [if_pos (by simp [h1]), objGet_cons, objGet_cons]
        by_cases hk : k' = k
        · rw [if_pos hk.symm, if_pos hk]
        · have hk' : ¬ k = k' := fun h => hk h.symm
          have h2 : ¬ k1 = k' := fun h => hk' (h1.symm.trans h)
          rw [if_neg hk', if_neg hk, if_neg h2]
      · rw [if_neg (by simp [h1]), objGet_cons, objGet_cons, ih]
        by_cases h2 : k1 = k'
        · subst h2
          rw [if_pos rfl, if_neg h1, if_pos rfl]
        · rw [if_neg h2, if_neg h2]

theorem objGet_eq_none_of_not_mem {β : Type} (o : List (String × β)) (k : String)
    (h : ¬ k ∈ o.map Prod.fst) : objGet o k = none := by
  rw [objGet, List.find?_eq_none.mpr]
  · rfl
  · intro kv hkv hbeq
    exact h (List.mem_map.mpr ⟨kv, hkv, beq_iff_eq.mp hbeq⟩)

theorem objGet_objAssign {β : Type} (src o : List (String × β)) (k : String)
    (hsrc : (src.map Prod.fst).Nodup) :
    objGet (objAssign o src) k
      = match objGet src k with
        | some v => some v
        | none => objGet o k := by
  induction src generalizing o with
  | nil => simp [objAssign, objGet]
  | cons kv rest ih =>
      obtain ⟨k1, v1⟩ := kv
      rw [List.map_cons, List.nodup_cons] at hsrc
      obtain ⟨hk1, hrest⟩ := hsrc
      show objGet (objAssign (objSet o k1 v1) rest) k = _
      rw [ih (objSet o k1 v1) hrest, objGet_cons]
      by_cases hk : k1 = k
      · subst hk
        have hnone : objGet rest k1 = none :=
          objGet_eq_none_of_not_mem rest k1 hk1
        rw [hnone, objGet_objSet]
        simp
      · rw [if_neg hk, objGet_objSet, if_neg (fun h : k = k1 => hk h.symm)]

theorem strippedBody_cons_none (k1 : String) (rest : PutBody) :
    strippedBody ((k1, none) :: rest) = strippedBody rest := rfl

theorem strippedBody_cons_some (k1 : String) (v : JVal) (rest : PutBody) :
    strippedBody ((k1, some v) :: rest) = (k1, v) :: strippedBody rest := rfl

theorem strippedBody_keys_sublist (body : PutBody) :
    List.Sublist ((strippedBody body).map Prod.fst) (body.map Prod.fst) := by
  induction body with
  | nil => simp [strippedBody]
  | cons kv rest ih =>
      obtain ⟨k1, v?⟩ := kv
      cases v? with
      | none =>
          rw [strippedBody_cons_none, List.map_cons]
          exact ih.cons k1
      | some v =>
          rw [strippedBody_cons_some, List.map_cons, List.map_cons]
          exact ih.cons₂ k1

theorem objGet_strippedBody (body : PutBody) (k : String)
    (hb : (body.map Prod.fst).Nodup) :
    objGet (strippedBody body) k
      = match objGet body k with
        | some (some v) => some v
        | _ => none := by
  induction body with
  | nil => rfl
  | cons kv rest ih =>
      obtain ⟨k1, v?⟩ := kv
      rw [List.map_cons, List.nodup_cons] at hb
      obtain ⟨hk1, hrest⟩ := hb
      cases v? with
      | none =>
          rw [strippedBody_cons_none, objGet_cons]
          by_cases hk : k1 = k
          · subst hk
            rw [if_pos rfl]
            have hnone : objGet (strippedBody rest) k1 = none :=
              objGet_eq_none_of_not_mem _ _
                (fun hmem => hk1 ((strippedBody_keys_sublist rest).mem hmem))
            rw [hnone]
          · rw [if_neg hk, ih hrest]
      | some v =>
          rw [strippedBody_cons_some, objGet_cons, objGet_cons]
          by_cases hk : k1 = k
          · rw [if_pos hk, if_pos hk]
          · rw [if_neg hk, if_neg hk, ih hrest]

/-- The data-layer mutation calls a handler issues
(`service.delete` / `service.update`). -/
inductive DataOp where
  | del (pk : Option JVal)
  | upd (pk : Option JVal)

/-- A handler's outcome: the HTTP result, the resulting stored rows, and
the data-layer mutations that were issued. -/
structure HandlerOut (R : Type) where
  result : Except HttpError R
  db : List JsObj
  dataOps : List DataOp

/-- `findOne({...filter, [primaryKey]: parseId(id)})`: the first stored
row that satisfies the caller's scoping filter and carries the parsed
primary key. -/
def findScoped (scope : JsObj → Bool) (pkField : String) (parsed : JVal)
    (db : List JsObj) : Option JsObj :=
  db.find? (fun e => scope e && objGet e pkField == some parsed)

/-- `service.update(where, data)` fetches `findOne(where)` and mutates
that object: apply `f` to the first row satisfying `p`. -/
def updateFirst (db : List JsObj) (p : JsObj → Bool) (f : JsObj → JsObj) :
    List JsObj :=
  match db with
  | [] => []
  | e :: rest => if p e then f e :: rest else e :: updateFirst rest p f

/-- The `delete` handler: find the scoped entity, `NotFoundException` when
absent, else `service.delete({ [primaryKey]: result[primaryKey] })`
(`nativeDelete` removes every row with that key). -/
def deleteHandler (scope : JsObj → Bool) (pkField : String) (parsed : JVal)
    (db : List JsObj) (name : String) : HandlerOut Unit :=
  match findScoped scope pkField parsed db with
  | none => ⟨.error (.notFound (name ++ " not found")), db, []⟩
  | some e =>
      ⟨.ok (), db.filter (fun x => !(objGet x pkField == objGet e pkField)),
        [.del (objGet e pkField)]⟩

/-- The `replace` (PATCH) handler: find the scoped entity,
`NotFoundException` when absent, else
`service.update({ [primaryKey]: ... }, body)` — the create-DTO body is
applied by `Object.assign` to the fetched row. -/
def replaceHandler (scope : JsObj → Bool) (pkField : String) (parsed : JVal)
    (body : JsObj) (db : List JsObj) (name : String) : HandlerOut JsObj :=
  match findScoped scope pkField parsed db with
  | none => ⟨.error (.notFound (name ++ " not found")), db, []⟩
  | some e =>
      ⟨.ok (objAssign e body),
        updateFirst db (fun x => objGet x pkField == objGet e pkField)
          (fun x => objAssign x body),
        [.upd (objGet e pkField)]⟩

/-- The `update` (PUT) handler: find the scoped entity,
`NotFoundException` when absent, else delete the `undefined`-valued keys
from a copy of the body and `service.update` with the remaining fields. -/
def putHandler (scope : JsObj → Bool) (pkField : String) (parsed : JVal)
    (body : PutBody) (db : List JsObj) (name : String) : HandlerOut JsObj :=
  match findScoped scope pkField parsed db with
  | none => ⟨.error (.notFound (name ++ " not found")), db, []⟩
  | some e =>
      ⟨.ok (applyPutBody e body),
        updateFirst db (fun x => objGet x pkField == objGet e pkField)
          (fun x => applyPutBody x body),
        [.upd (objGet e pkField)]⟩

/-- **C7.** A delete, partial-update (PUT) or full-update (PATCH) request
whose id matches no entity under the scoping filter yields a not-found
error; the stored rows are unchanged and no delete or update is issued to
the data layer, so no data-layer error can surface. -/
theorem missing_id_delete_update (scope : JsObj → Bool) (pkField : String)
    (parsed : JVal) (body : JsObj) (putBody : PutBody) (db : List JsObj)
    (name : String) (h : findScoped scope pkField parsed db = none) :
    deleteHandler scope pkField parsed db name
        = ⟨.error (.notFound (name ++ " not found")), db, []⟩
    ∧ replaceHandler scope pkField parsed body db name
        = ⟨.error (.notFound (name ++ " not found")), db, []⟩
    ∧ putHandler scope pkField parsed putBody db name
        = ⟨.error (.notFound (name ++ " not found")), db, []⟩ := by
  refine ⟨?_, ?_, ?_⟩ <;>
    simp [deleteHandler, replaceHandler, putHandler, h]

/-- Witness: on an empty data set every id lookup misses and the three
handlers answer not-found without touching the data layer. -/
theorem missing_id_delete_update_witness :
    deleteHandler (fun _ => true) "id" (JVal.num 1) [] "user"
        = ⟨.error (.notFound ("user" ++ " not found")), [], []⟩
    ∧ replaceHandler (fun _ => true) "id" (JVal.num 1) [] [] "user"
        = ⟨.error (.notFound ("user" ++ " not found")), [], []⟩
    ∧ putHandler (fun _ => true) "id" (JVal.num 1) [] [] "user"
        = ⟨.error (.notFound ("user" ++ " not found")), [], []⟩ :=
  missing_id_delete_update (fun _ => true) "id" (JVal.num 1) [] [] [] "user" rfl

/-- **C10.** In the PUT handler every body key whose value is `undefined`
is removed from the payload before the update is applied: a field the body
does not supply, or supplies as `undefined`, keeps its stored value, and a
field supplied with a defined value takes that value. -/
theorem put_update_strips_undefined (e : JsObj) (body : PutBody)
    (hb : (body.map Prod.fst).Nodup) :
    (∀ k, objGet body k = some none →
        objGet (applyPutBody e body) k = objGet e k)
    ∧ (∀ k, objGet body k = none →
        objGet (applyPutBody e body) k = objGet e k)
    ∧ (∀ k v, objGet body k = some (some v) →
        objGet (applyPutBody e body) k = some v) := by
  have hnd : ((strippedBody body).map Prod.fst).Nodup :=
    List.Nodup.sublist (strippedBody_keys_sublist body) hb
  refine ⟨?_, ?_, ?_⟩
  · intro k hk
    rw [applyPutBody, objGet_objAssign _ _ _ hnd, objGet_strippedBody _ _ hb, hk]
  · intro k hk
    rw [applyPutBody, objGet_objAssign _ _ _ hnd, objGet_strippedBody _ _ hb, hk]
  · intro k v hk
    rw [applyPutBody, objGet_objAssign _ _ _ hnd, objGet_strippedBody _ _ hb, hk]

/-- Witness: body `{a: 1, b: undefined}` applied to entity
`{a: 0, b: 2}` — `a` is modified, `b` and the unsupplied `c` keep their
stored values. -/
theorem put_update_strips_undefined_witness :
    (∀ k, objGet ([("a", some (JVal.num 1)), ("b", none)] : PutBody) k
          = some none →
        objGet (applyPutBody [("a", JVal.num 0), ("b", JVal.num 2)]
            [("a", some (JVal.num 1)), ("b", none)]) k
          = objGet [("a", JVal.num 0), ("b", JVal.num 2)] k)
    ∧ (∀ k, objGet ([("a", some (JVal.num 1)), ("b", none)] : PutBody) k
          = none →
        objGet (applyPutBody [("a", JVal.num 0), ("b", JVal.num 2)]
            [("a", some (JVal.num 1)), ("b", none)]) k
          = objGet [("a", JVal.num 0), ("b", JVal.num 2)] k)
    ∧ (∀ k v, objGet ([("a", some (JVal.num 1)), ("b", none)] : PutBody) k
          = some (some v) →
        objGet (applyPutBody [("a", JVal.num 0), ("b", JVal.num 2)]
            [("a", some (JVal.num 1)), ("b", none)]) k = some v) :=
  put_update_strips_undefined [("a", JVal.num 0), ("b", JVal.num 2)]
    [("a", some (JVal.num 1)), ("b", none)] (by decide)

end NestCommon
